import Mathlib

/-!
Verification of the moocore Python binding layer (`_moocore.py`) against its
natural-language specification.  Datasets are matrices of rationals: each row
is a point in objective space, optionally extended by a trailing set-identifier
column.  The Python layer validates shapes, splits multi-set data and combines
results; the numeric cores live in a C library and are modelled here from the
specification (each such definition is marked `Modelled from the spec:`).
-/

namespace Moocore

/-- A row of a dataset: the coordinates of one point (possibly with a
trailing set-identifier entry). -/
abbrev Row : Type := List ℚ

/-- A dataset: a list of rows. -/
abbrev Matrix : Type := List Row

/-- The set-identifier column entry of a row (`row[-1]` in numpy). -/
def lastCol (r : Row) : ℚ := r.getLastD 0

/-- A row without its set-identifier entry (`row[:-1]` in numpy). -/
def dropLastCol (r : Row) : Row := r.dropLast

/-- The set-identifier column of a dataset (`data[:, -1]`). -/
def ids (x : Matrix) : List ℚ := x.map lastCol

/-- The objective columns of a dataset (`data[:, :-1]`). -/
def objs (x : Matrix) : Matrix := x.map dropLastCol

/-- Arithmetic mean of a list of rationals (`np.mean`); 0 for the empty
list (numpy would return NaN, never exercised here). -/
def meanQ (xs : List ℚ) : ℚ := xs.sum / (xs.length : ℚ)

/-- Componentwise maximum of two points: the lower corner of the
intersection of the two boxes they span with a common upper corner. -/
def cornerSup (p q : Row) : Row := (p.zip q).map (fun ab => max ab.1 ab.2)

/-- Volume of the axis-aligned box between point `p` and the reference
point `ref`, each coordinate clamped at 0. -/
def pointBoxVol (ref p : Row) : ℚ :=
  ((ref.zip p).map (fun ab => max (ab.1 - ab.2) 0)).prod

/-- Modelled from the spec: the C hypervolume core (`fpli_hv`, not part of
the Python sources) returns the Lebesgue measure of the union, over all
points `p` of the dataset, of the axis-aligned box `[p, reference]`,
clamped at 0 per coordinate.  Computed by the inclusion-exclusion
recursion: the measure of `box p ∪ U` is `vol (box p) + vol U` minus the
measure of `box p ∩ U`, and intersecting every box of `U` with `box p`
raises each lower corner to the componentwise maximum. -/
def hypervolume (data : Matrix) (ref : Row) : ℚ :=
  match data with
  | [] => 0
  | p :: rest =>
      pointBoxVol ref p + hypervolume rest ref
        - hypervolume (rest.map (cornerSup p)) ref
termination_by data.length
decreasing_by
  all_goals simp_all [List.length_map]

/-- The `avg_hyp` value computed by `vorobT` (line 718 of `_moocore.py`):
`np.mean([hypervolume(data[sets == k, :-1], ref=reference) for k in sets])`.
The comprehension iterates over `sets`, the whole set-identifier column
(one entry per row); the `uniq_sets` variable computed on the previous
line is never used.  The returned dictionary's `avg_hyp` entry is this
value. -/
def vorobT_avg_hyp (data : Matrix) (reference : Row) : ℚ :=
  meanQ ((ids data).map (fun k =>
    hypervolume ((data.filter (fun r => lastCol r = k)).map dropLastCol) reference))

/-- Claim C1: the `avg_hyp` returned by `vorobT` is claimed to be the
unweighted mean, over the distinct sets, of each run's hypervolume.  On the
dataset with runs {(0,0)} (set 1) and {(1,1),(1,1)} (set 2) and reference
(2,2), the run hypervolumes are 4 and 1, so the claimed value is 5/2; the
code instead averages once per row, yielding (4+1+1)/3 = 2. -/
theorem vorobT_avg_hyp_row_weighted :
    vorobT_avg_hyp [[0,0,1],[1,1,2],[1,1,2]] [2,2] = 2 ∧
    meanQ (((ids [[0,0,1],[1,1,2],[1,1,2]]).dedup).map (fun k =>
      hypervolume (([[0,0,1],[1,1,2],[1,1,2]].filter
        (fun r => lastCol r = k)).map dropLastCol) [2,2])) = 5/2 ∧
    (2 : ℚ) ≠ 5/2 := by
  refine ⟨?_, ?_, by norm_num⟩ <;>
    norm_num [vorobT_avg_hyp, meanQ, ids, lastCol, dropLastCol, hypervolume,
      pointBoxVol, cornerSup, List.getLastD, List.filter, List.dedup]

/-- Minimum of a list of rationals, 0 for the empty list (the empty case
is never reached on validated inputs). -/
def listMinQ : List ℚ → ℚ
  | [] => 0
  | x :: xs => xs.foldl min x

/-- Maximum of a list of rationals, 0 for the empty list. -/
def listMaxQ : List ℚ → ℚ
  | [] => 0
  | x :: xs => xs.foldl max x

/-- Column `j` minimum of a matrix (`data.min(axis=0)` at column `j`). -/
def colMin (m : Matrix) (j : ℕ) : ℚ := listMinQ (m.map (fun r => r.getD j 0))

/-- Column `j` maximum of a matrix (`data.max(axis=0)` at column `j`). -/
def colMax (m : Matrix) (j : ℕ) : ℚ := listMaxQ (m.map (fun r => r.getD j 0))

/-- A fresh buffer holding the same values as `m` (`np.ndarray.copy`);
the C routine called by `normalise` mutates this buffer, never the
caller's. -/
def np_copy (m : Matrix) : Matrix := m.map (fun r => r.map id)

/-- Modelled from the spec: the C routine `agree_normalise` (absent from
the Python sources) rescales its buffer in place, per coordinate, by the
affine map sending `[lower_j, upper_j]` onto `[lo, hi]`; if objective `j`
is maximised the range endpoints are swapped.  Value-level result of that
mutation. -/
def agree_normalise (work : Matrix) (maximise : List Bool) (lo hi : ℚ)
    (lower upper : Row) : Matrix :=
  work.map (fun r => (List.range r.length).map (fun j =>
    let l := if maximise.getD j false then hi else lo
    let h := if maximise.getD j false then lo else hi
    l + (r.getD j 0 - lower.getD j 0) * (h - l) / (upper.getD j 0 - lower.getD j 0)))

/-- Result of a Python call that received a caller-owned matrix:
`caller` is the caller's matrix after the call returns, `ret` the value
returned (or the error raised). -/
structure PyCall where
  caller : Matrix
  ret : Except String Matrix

/-- Embedding of `normalise` (lines 487-557).  The source first copies
the caller's array (line 533: `data = np.asfarray(data).copy()`, with the
comment "Normalise modifies the data, so we need to create a copy"), then
hands only the copy to the C rescaling routine and returns a view of the
copy, so the caller's matrix is returned unchanged in every branch.
`lower`/`upper` are `none` for the `np.nan` default, in which case the
observed column minima/maxima of the data are used. -/
def normalise_ret (data : Matrix) (to_range : List ℚ)
    (lower upper : Option Row) (maximise : List Bool) : Except String Matrix :=
  let work := np_copy data
  let nobj := (work.headD []).length
  if nobj = 1 then .error "data must have at least two columns"
  else if to_range.length ≠ 2 then .error "to_range must have length 2"
  else
    let lowerV := match lower with
      | some l => l
      | none => (List.range nobj).map (colMin work)
    let upperV := match upper with
      | some u => u
      | none => (List.range nobj).map (colMax work)
    .ok (agree_normalise work maximise (to_range.getD 0 0) (to_range.getD 1 0)
      lowerV upperV)

/-- The full call: the caller's matrix is handed back untouched (the
source never writes through the caller's buffer: every write of
`agree_normalise` lands in the copy made on line 533, and the returned
array is rebuilt from that copy's buffer). -/
def normalise (data : Matrix) (to_range : List ℚ)
    (lower upper : Option Row) (maximise : List Bool) : PyCall :=
  ⟨data, normalise_ret data to_range lower upper maximise⟩

/-- Claim C4, counterexample: `normalise` does not modify the caller's
matrix.  On the dataset of the function's own docstring with
`to_range = [1,2]`, `lower = [3.5,3.5]`, `upper = [5.5,5.5]`, the call
returns the caller's matrix unchanged together with a fresh rescaled
matrix that differs from the input. -/
theorem normalise_not_inplace_cex :
    (normalise [[3.5,5.5],[3.6,4.1],[4.1,3.2],[5.5,1.5]] [1,2]
        (some [3.5,3.5]) (some [5.5,5.5]) [false,false]).caller
      = [[3.5,5.5],[3.6,4.1],[4.1,3.2],[5.5,1.5]] ∧
    (normalise [[3.5,5.5],[3.6,4.1],[4.1,3.2],[5.5,1.5]] [1,2]
        (some [3.5,3.5]) (some [5.5,5.5]) [false,false]).ret
      = .ok [[1,2],[1.05,1.3],[1.3,0.85],[2,0]] ∧
    ([[1,2],[1.05,1.3],[1.3,0.85],[2,0]] : Matrix)
      ≠ [[3.5,5.5],[3.6,4.1],[4.1,3.2],[5.5,1.5]] := by
  refine ⟨?_, ?_, ?_⟩
  · rfl
  · norm_num [normalise, normalise_ret, np_copy, agree_normalise, List.range_succ]
  · intro h
    have := congrArg (fun m => (m.headD []).headD 0) h
    norm_num at this

/-- Claim C4, amended: no call to `normalise` mutates the caller's
matrix: whatever the arguments, the matrix the caller handed in is
returned to it unchanged (the rescaled result is a fresh copy). -/
theorem normalise_keeps_caller_data (data : Matrix) (to_range : List ℚ)
    (lower upper : Option Row) (maximise : List Bool) :
    (normalise data to_range lower upper maximise).caller = data := rfl

/-- Shape validation shared by the distance indicators
(`_unary_refset_common`, lines 113-129): `data` and `ref` must have the
same number of columns; nothing else about the values is checked. -/
def unary_refset_check (data ref : Matrix) : Except String Unit :=
  if (data.headD []).length = (ref.headD []).length then .ok ()
  else .error "data and ref need to have the same number of columns"

/-- Modelled from the spec: the C multiplicative-epsilon core
(`lib.epsilon_mult`, absent from the Python sources) computes
`max over r in ref of (min over a in data of (max over k of a_k / r_k))`
for minimised objectives. -/
def epsilon_mult_core (data ref : Matrix) : ℚ :=
  listMaxQ (ref.map (fun r =>
    listMinQ (data.map (fun a =>
      listMaxQ ((a.zip r).map (fun xy => xy.1 / xy.2))))))

/-- Embedding of `epsilon_mult` (lines 247-256): only the shared shape
check of `_unary_refset_common` runs before the core computation; the
coordinates' signs are never inspected. -/
def epsilon_mult (data ref : Matrix) : Except String ℚ :=
  match unary_refset_check data ref with
  | .error e => .error e
  | .ok _ => .ok (epsilon_mult_core data ref)

/-- Claim C5, counterexample: on `data = [[-1, 2]]`, `ref = [[1, 1]]` -
which contain a non-positive coordinate - `epsilon_mult` does not surface
a validation error; it returns the numeric result 2. -/
theorem epsilon_mult_accepts_nonpositive_cex :
    epsilon_mult [[-1, 2]] [[1, 1]] = .ok 2 := by
  norm_num [epsilon_mult, unary_refset_check, epsilon_mult_core,
    listMaxQ, listMinQ]

/-- Claim C5, amended: for every `data` and `ref` with matching column
counts, `epsilon_mult` performs no positivity validation: it always
proceeds into the core computation and returns a numeric result,
whatever the signs of the coordinates (positivity is a documented caller
precondition, not a validated one). -/
theorem epsilon_mult_no_sign_validation (data ref : Matrix)
    (hcols : (data.headD []).length = (ref.headD []).length) :
    epsilon_mult data ref = .ok (epsilon_mult_core data ref) := by
  unfold epsilon_mult unary_refset_check
  rw [if_pos hcols]

/-- Claim C5, witness for the amended theorem at a concrete input with a
negative coordinate in `data` and a zero coordinate in `ref`. -/
theorem epsilon_mult_no_sign_validation_witness :
    epsilon_mult [[-3, 5], [0, 1]] [[2, 0]] = .ok (epsilon_mult_core [[-3, 5], [0, 1]] [[2, 0]]) :=
  epsilon_mult_no_sign_validation [[-3, 5], [0, 1]] [[2, 0]] rfl

/-- Insert a rational into a sorted list, keeping it sorted. -/
def insertSorted (a : ℚ) : List ℚ → List ℚ
  | [] => [a]
  | b :: rest => if a ≤ b then a :: b :: rest else b :: insertSorted a rest

/-- Sort a list of rationals into nondecreasing order (insertion sort;
the model of the sorting numpy performs inside `np.unique`). -/
def sortQ (xs : List ℚ) : List ℚ := xs.foldr insertSorted []

/-- Collapse adjacent equal entries; on a sorted list this keeps exactly
one copy of each distinct value. -/
def dedupAdj : List ℚ → List ℚ
  | [] => []
  | [a] => [a]
  | a :: b :: rest => if a = b then dedupAdj (b :: rest) else a :: dedupAdj (b :: rest)

/-- `np.unique(xs)`: the distinct values of `xs` in increasing order. -/
def np_unique (xs : List ℚ) : List ℚ := dedupAdj (sortQ xs)

/-- `np.unique(xs, return_index=True)` second component: for each distinct
value in increasing order, the index of its first occurrence in `xs`. -/
def np_unique_first_index (xs : List ℚ) : List ℕ :=
  (np_unique xs).map (fun v => xs.findIdx (fun a => decide (a = v)))

/-- Point `q` is no worse than point `p` in every objective
(minimisation). -/
def weaklyDomLE (q p : Row) : Bool := (q.zip p).all (fun ab => ab.1 ≤ ab.2)

/-- Point `q` is strictly better than point `p` in at least one
objective (minimisation). -/
def strictlyBetterSomewhere (q p : Row) : Bool := (q.zip p).any (fun ab => ab.1 < ab.2)

/-- Modelled from the spec: `q` dominates `p` when it is no worse in
every objective and strictly better in at least one (minimisation
orientation). -/
def dominates (q p : Row) : Bool := weaklyDomLE q p && strictlyBetterSomewhere q p

/-- Modelled from the spec: the nondominated front of a list of points -
the points not dominated by any point of the list. -/
def ndFront (pts : Matrix) : Matrix :=
  pts.filter (fun y => !(pts.any (fun q => dominates q y)))

/-- Modelled from the spec: the C EAF core (`eaf_compute_matrix`, absent
from the Python sources).  For each requested percentile `c`, a point is
attained at count `k` when at least `k` of the `m` runs contain a point
that dominates or equals it; the output rows are the nondominated front
of the input points attained by at least `ceil(c * m / 100)` runs, each
tagged with the percentile `c` as an extra final column. -/
def eafCore (data : Matrix) (levels : List ℚ) : Matrix :=
  let uniq := np_unique (ids data)
  let m := uniq.length
  let runs := uniq.map (fun k => (data.filter (fun r => lastCol r = k)).map dropLastCol)
  levels.flatMap (fun c =>
    let k := (Int.ceil (c * m / 100)).toNat
    let attained := (objs data).filter (fun y =>
      k ≤ (runs.filter (fun run => run.any (fun p => weaklyDomLE p y))).length)
    (ndFront attained).map (fun y => y ++ [c]))

/-- Embedding of `eaf` (lines 603-674).  Shape validation: fewer than 3
total columns raises `ValueError`, more than 4 raises
`NotImplementedError`; then the number of sets is the number of distinct
identifiers (`np.unique(data[:, -1], return_counts=True)`), and an empty
percentile list becomes `np.arange(1.0, nsets + 1) * (100.0 / nsets)`,
a nonempty one `np.unique(percentiles)`. -/
def eaf (data : Matrix) (percentiles : List ℚ) : Except String Matrix :=
  let ncols := (data.headD []).length
  if ncols < 3 then
    .error "data must have at least 3 columns (2 objectives + set column)"
  else if 4 < ncols then
    .error "Only 2D or 3D datasets are currently supported for computing the EAF"
  else
    let nsets := (np_unique (ids data)).length
    let levels :=
      if percentiles.isEmpty then
        (List.range nsets).map (fun i : ℕ => ((i : ℚ) + 1) * (100 / (nsets : ℚ)))
      else np_unique percentiles
    .ok (eafCore data levels)

/-- Claim C6: `eaf` raises for every dataset with more than 4 total
columns or fewer than 3 total columns, and proceeds to a computed result
for exactly 3 or 4 total columns (2 or 3 objectives). -/
theorem eaf_dimension_check (data : Matrix) (percentiles : List ℚ) :
    (((data.headD []).length < 3 ∨ 4 < (data.headD []).length) →
      ∃ e, eaf data percentiles = .error e) ∧
    (((data.headD []).length = 3 ∨ (data.headD []).length = 4) →
      ∃ v, eaf data percentiles = .ok v) := by
  constructor
  · intro h
    rcases h with h | h
    · have he : eaf data percentiles
          = .error "data must have at least 3 columns (2 objectives + set column)" := by
        unfold eaf; rw [if_pos h]
      exact ⟨_, he⟩
    · have he : eaf data percentiles
          = .error "Only 2D or 3D datasets are currently supported for computing the EAF" := by
        unfold eaf; rw [if_neg (by omega), if_pos h]
      exact ⟨_, he⟩
  · intro h
    have he : ∃ v, eaf data percentiles = .ok v := by
      unfold eaf
      rw [if_neg (by omega), if_neg (by omega)]
      exact ⟨_, rfl⟩
    exact he

/-- Claim C6, witness: a 3-column dataset proceeds, a 2-column and a
5-column dataset raise. -/
theorem eaf_dimension_check_witness :
    (∃ v, eaf [[1, 2, 1]] [] = .ok v) ∧
    (∃ e, eaf [[1, 2]] [] = .error e) ∧
    (∃ e, eaf [[1, 2, 3, 4, 1]] [] = .error e) :=
  ⟨(eaf_dimension_check [[1, 2, 1]] []).2 (by norm_num),
   (eaf_dimension_check [[1, 2]] []).1 (by norm_num),
   (eaf_dimension_check [[1, 2, 3, 4, 1]] []).1 (by norm_num)⟩

/-- Claim C7: with an empty percentile list and `m` distinct set
identifiers, `eaf` computes the attainment records at exactly the `m`
natural levels `100*1/m, 100*2/m, ..., 100*m/m`. -/
theorem eaf_default_levels (data : Matrix)
    (hcols : (data.headD []).length = 3 ∨ (data.headD []).length = 4) :
    eaf data [] = .ok (eafCore data
      ((List.range (np_unique (ids data)).length).map
        (fun k : ℕ => 100 * ((k : ℚ) + 1) / ((np_unique (ids data)).length : ℚ)))) := by
  have hmap : (List.range (np_unique (ids data)).length).map
      (fun i : ℕ => ((i : ℚ) + 1) * (100 / ((np_unique (ids data)).length : ℚ)))
      = (List.range (np_unique (ids data)).length).map
      (fun k : ℕ => 100 * ((k : ℚ) + 1) / ((np_unique (ids data)).length : ℚ)) :=
    List.map_congr_left (fun i _ => by ring)
  unfold eaf
  rw [if_neg (by omega), if_neg (by omega)]
  simp [hmap]

/-- Claim C7, witness: two distinct set identifiers give the natural
levels 50 and 100. -/
theorem eaf_default_levels_witness :
    eaf [[1, 2, 1], [3, 4, 2]] [] = .ok (eafCore [[1, 2, 1], [3, 4, 2]] [50, 100]) := by
  have h := eaf_default_levels [[1, 2, 1], [3, 4, 2]] (by norm_num)
  have hu : np_unique (ids [[1, 2, 1], [3, 4, 2]]) = [1, 2] := by
    norm_num [np_unique, ids, lastCol, sortQ, insertSorted, dedupAdj, List.getLastD]
  rw [h, hu]
  norm_num [List.range_succ]

/-- Euclidean distance between two points. -/
noncomputable def euclid (a r : Row) : ℝ :=
  Real.sqrt (((a.zip r).map (fun xy => ((xy.1 - xy.2 : ℚ) : ℝ) ^ 2)).sum)

/-- Minimum of a list of reals, 0 for the empty list. -/
noncomputable def listMinR : List ℝ → ℝ
  | [] => 0
  | x :: xs => xs.foldl min x

/-- Arithmetic mean of a list of reals, 0 for the empty list. -/
noncomputable def meanR (xs : List ℝ) : ℝ := xs.sum / (xs.length : ℝ)

/-- Modelled from the spec: the C averaged-Hausdorff core
(`avg_Hausdorff_dist`, absent from the Python sources) computes
`max(GD_p, IGD_p)` where `GD_p = (mean over a of (min over r of
dist(a,r))^p)^(1/p)` and `IGD_p` swaps the roles of the two sets.  The
exponent arrives as the C `unsigned int` the Python layer casts `p`
into. -/
noncomputable def avg_Hausdorff_core (data ref : Matrix) (p : ℕ) : ℝ :=
  max ((meanR (data.map (fun a => (listMinR (ref.map (fun r => euclid a r))) ^ p)))
        ^ (((p : ℝ))⁻¹))
      ((meanR (ref.map (fun r => (listMinR (data.map (fun a => euclid a r))) ^ p)))
        ^ (((p : ℝ))⁻¹))

/-- The truncation performed by `ffi.cast("unsigned int", p)` on a
nonnegative double: the integer part of `p` (C casts truncate toward
zero). -/
def ffi_cast_uint (p : ℚ) : ℕ := (Int.floor p).toNat

/-- Embedding of `avg_hausdorff_dist` (lines 193-205): reject `p <= 0`
first, then run the shared column-count check, then call the C core with
`p` cast to an unsigned integer. -/
noncomputable def avg_hausdorff_dist (data ref : Matrix) (p : ℚ) : Except String ℝ :=
  if p ≤ 0 then .error "p must be larger than zero"
  else
    match unary_refset_check data ref with
    | .error e => .error e
    | .ok _ => .ok (avg_Hausdorff_core data ref (ffi_cast_uint p))

/-- Claim C9: `avg_hausdorff_dist` fails exactly on non-positive `p`:
for `p <= 0` it raises before any distance computation, whatever the
shapes, and for `p > 0` with matching column counts it proceeds to
return a distance. -/
theorem avg_hausdorff_p_check (data ref : Matrix) (p : ℚ) :
    (p ≤ 0 → avg_hausdorff_dist data ref p = .error "p must be larger than zero") ∧
    (0 < p → (data.headD []).length = (ref.headD []).length →
      ∃ v, avg_hausdorff_dist data ref p = .ok v) := by
  constructor
  · intro hp
    unfold avg_hausdorff_dist
    rw [if_pos hp]
  · intro hp hcols
    have he : avg_hausdorff_dist data ref p
        = .ok (avg_Hausdorff_core data ref (ffi_cast_uint p)) := by
      unfold avg_hausdorff_dist unary_refset_check
      rw [if_neg (not_le.mpr hp), if_pos hcols]
    exact ⟨_, he⟩

/-- Claim C9, witness: `p = -1` raises, `p = 1` proceeds on a pair of
one-point sets with matching columns. -/
theorem avg_hausdorff_p_check_witness :
    avg_hausdorff_dist [[0, 0]] [[1, 1]] (-1) = .error "p must be larger than zero" ∧
    ∃ v, avg_hausdorff_dist [[0, 0]] [[1, 1]] 1 = .ok v :=
  ⟨(avg_hausdorff_p_check [[0, 0]] [[1, 1]] (-1)).1 (by norm_num),
   (avg_hausdorff_p_check [[0, 0]] [[1, 1]] 1).2 (by norm_num) rfl⟩

/-- Claim C10, counterexample: the calls with `p = 1/2` and with
`p = floor(1/2) = 0` do not return the same result: the first passes the
positivity check and reaches the core (with truncated exponent 0), the
second raises. -/
theorem avg_hausdorff_floor_cex :
    avg_hausdorff_dist [[0, 0]] [[1, 1]] (1/2)
      ≠ avg_hausdorff_dist [[0, 0]] [[1, 1]] ((Int.floor ((1:ℚ)/2) : ℤ) : ℚ) := by
  have h1 : avg_hausdorff_dist [[0, 0]] [[1, 1]] (1/2)
      = .ok (avg_Hausdorff_core [[0, 0]] [[1, 1]] (ffi_cast_uint (1/2))) := by
    unfold avg_hausdorff_dist unary_refset_check
    rw [if_neg (by norm_num)]
    simp
  have hf : ((Int.floor ((1:ℚ)/2) : ℤ) : ℚ) = 0 := by norm_num
  have h2 : avg_hausdorff_dist [[0, 0]] [[1, 1]] ((Int.floor ((1:ℚ)/2) : ℤ) : ℚ)
      = .error "p must be larger than zero" := by
    rw [hf]
    unfold avg_hausdorff_dist
    rw [if_pos le_rfl]
  rw [h1, h2]
  simp

/-- Claim C10, amended: the truncation claim holds away from the
positivity boundary.  For every `p >= 1` the calls with `p` and with
`floor(p)` return the same result (both pass the check and the core
receives the same truncated exponent); and for fractional `p` in `(0,1)`
the call passes the positivity check but hands the core the truncated
exponent 0 - while the call with `floor(p) = 0` itself raises, so the
two calls differ there. -/
theorem avg_hausdorff_trunc (data ref : Matrix) (p : ℚ) :
    (1 ≤ p → avg_hausdorff_dist data ref p
      = avg_hausdorff_dist data ref ((Int.floor p : ℤ) : ℚ)) ∧
    (0 < p → p < 1 → (data.headD []).length = (ref.headD []).length →
      avg_hausdorff_dist data ref p = .ok (avg_Hausdorff_core data ref 0)) := by
  constructor
  · intro hp
    have hfl : (1 : ℤ) ≤ Int.floor p := by
      rw [Int.le_floor]; exact_mod_cast hp
    have hpn : ¬ p ≤ 0 := by
      intro h; exact absurd (h.trans_lt (by norm_num : (0:ℚ) < 1)) (not_lt.mpr hp)
    have hfn : ¬ ((Int.floor p : ℤ) : ℚ) ≤ 0 := by
      intro h
      have : (Int.floor p : ℤ) ≤ 0 := by exact_mod_cast h
      omega
    have hcast : ffi_cast_uint ((Int.floor p : ℤ) : ℚ) = ffi_cast_uint p := by
      unfold ffi_cast_uint
      rw [Int.floor_intCast]
    unfold avg_hausdorff_dist
    rw [if_neg hpn, if_neg hfn, hcast]
  · intro hp0 hp1 hcols
    have hfl : Int.floor p = 0 := by
      apply Int.floor_eq_zero_iff.mpr
      constructor
      · exact_mod_cast hp0.le
      · exact_mod_cast hp1
    have hcast : ffi_cast_uint p = 0 := by
      unfold ffi_cast_uint; rw [hfl]; rfl
    unfold avg_hausdorff_dist unary_refset_check
    rw [if_neg (not_le.mpr hp0), if_pos hcols, hcast]

/-- Claim C10, witness for the amended theorem: `p = 3/2` agrees with
its floor `1`, and `p = 1/2` reaches the core with exponent 0. -/
theorem avg_hausdorff_trunc_witness :
    avg_hausdorff_dist [[0, 0]] [[1, 1]] (3/2)
      = avg_hausdorff_dist [[0, 0]] [[1, 1]] ((Int.floor ((3:ℚ)/2) : ℤ) : ℚ) ∧
    avg_hausdorff_dist [[2, 3]] [[1, 1]] (1/2)
      = .ok (avg_Hausdorff_core [[2, 3]] [[1, 1]] 0) :=
  ⟨(avg_hausdorff_trunc [[0, 0]] [[1, 1]] (3/2)).1 (by norm_num),
   (avg_hausdorff_trunc [[2, 3]] [[1, 1]] (1/2)).2 (by norm_num) (by norm_num) rfl⟩

/-- Modelled from the spec: the C `is_nondominated` core (absent from the
Python sources).  Index `i` is true when no other point dominates point
`i`; with `keep_weakly = false` every point that has an exact duplicate
elsewhere is additionally marked false (spec 4.1: all members of a
mutually-equal group are dropped).  Minimisation orientation (the claims
settled here use the default `maximise=False`). -/
def is_nondominated (data : Matrix) (keep_weakly : Bool) : List Bool :=
  data.enum.map (fun ia =>
    (data.enum.all (fun jb => jb.1 == ia.1 || !(dominates jb.2 ia.2))) &&
    (keep_weakly || data.enum.all (fun jb => jb.1 == ia.1 || !(decide (jb.2 = ia.2)))))

/-- Boolean-mask row selection, `m[mask]` in numpy. -/
def boolMask (m : Matrix) (mask : List Bool) : Matrix :=
  ((m.zip mask).filter (fun rm => rm.2)).map (fun rm => rm.1)

/-- `filter_dominated` (lines 373-377): `data[is_nondominated(data), :]`. -/
def filter_dominated (data : Matrix) (keep_weakly : Bool) : Matrix :=
  boolMask data (is_nondominated data keep_weakly)

/-- `np.vsplit(m, cuts)` helper: the slices `m[prev:c]` for successive
absolute cut positions, ending with `m[last:]`; numpy slicing clamps, so
truncated subtraction models it exactly. -/
def npSplitGo (m : Matrix) : ℕ → List ℕ → List Matrix
  | prev, [] => [m.drop prev]
  | prev, c :: cs => ((m.drop prev).take (c - prev)) :: npSplitGo m c cs

/-- `np.vsplit(m, cuts)`. -/
def np_vsplit (m : Matrix) (cuts : List ℕ) : List Matrix := npSplitGo m 0 cuts

/-- `np.fromiter(it, dtype=float, count=n)` on an iterator that yields
boolean arrays: each yielded item must be a size-1 array to convert to a
float scalar (a larger one raises), and the iterator must supply at
least `count` items (otherwise numpy raises "iterator too short"). -/
def np_fromiter_float : List (List Bool) → ℕ → Except String (List ℚ)
  | _, 0 => .ok []
  | [], _ + 1 => .error "iterator too short"
  | item :: rest, n + 1 =>
      match item with
      | [b] =>
          match np_fromiter_float rest n with
          | .error e => .error e
          | .ok xs => .ok ((if b then (1:ℚ) else 0) :: xs)
      | _ => .error "only size-1 arrays can be converted to Python scalars"

/-- Fancy indexing `m[idx, :]` with a float-valued index array: numpy
raises `IndexError` unconditionally, float arrays are never valid
indices. -/
def np_take_float_rows (_m : Matrix) (_idx : List ℚ) : Except String Matrix :=
  .error "arrays used as indices must be of integer or boolean type"

/-- Embedding of `filter_dominated_sets` (lines 425-442): after the
column-count check, the data is split at the first-occurrence indices of
the sorted distinct set identifiers, a nondominated mask is computed per
split, and the per-split boolean mask ARRAYS are fed to
`np.fromiter(..., dtype=float, count=data.shape[0])`, whose result is
then used as an index array into `data`. -/
def filter_dominated_sets (data : Matrix) (keep_weakly : Bool) : Except String Matrix :=
  let ncols := (data.headD []).length
  if ncols < 3 then
    .error "data must have at least 3 columns (2 objectives + set column)"
  else
    let cuts := (np_unique_first_index (ids data)).drop 1
    let x_split := np_vsplit (objs data) cuts
    let masks := x_split.map (fun g => is_nondominated g keep_weakly)
    match np_fromiter_float masks data.length with
    | .error e => .error e
    | .ok fidx => np_take_float_rows data fidx

/-- Contiguous grouping of rows by equal set identifier (the partition
the claim describes; equal identifiers are assumed contiguous). -/
def groupRuns : Matrix → List Matrix
  | [] => []
  | r :: rest =>
      match groupRuns rest with
      | [] => [[r]]
      | g :: gs =>
          match g with
          | [] => [r] :: gs
          | s :: _ => if lastCol r = lastCol s then (r :: g) :: gs else [r] :: g :: gs

/-- The behaviour claim C3 describes, written from the claim's words:
partition the rows into contiguous equal-identifier sets, filter each
set's points independently, keep the surviving full rows (identifier
column preserved), and concatenate in original partition order. -/
def filter_dominated_sets_spec (data : Matrix) (keep_weakly : Bool) : Matrix :=
  (groupRuns data).flatMap
    (fun g => boolMask g (is_nondominated (g.map dropLastCol) keep_weakly))

/-- Claim C3: on the dataset {set 1: (1,1),(0,1); set 2: (1,0),(2,2)}
the claimed result is the per-set concatenation [[0,1,1],[1,0,2]], but
the code raises: `np.fromiter` with `dtype=float` receives the whole
2-element boolean mask of set 1 as its first item and cannot convert it
to a scalar (and its `count` is the number of rows, not of sets; even
with singleton sets the float mask would be an invalid index array). -/
theorem filter_dominated_sets_raises :
    filter_dominated_sets [[1,1,1],[0,1,1],[1,0,2],[2,2,2]] false
      = .error "only size-1 arrays can be converted to Python scalars" ∧
    filter_dominated_sets_spec [[1,1,1],[0,1,1],[1,0,2],[2,2,2]] false
      = [[0,1,1],[1,0,2]] := by
  constructor
  · norm_num [filter_dominated_sets, np_unique_first_index, np_unique, ids, lastCol,
      sortQ, insertSorted, dedupAdj, List.getLastD, np_vsplit, npSplitGo, objs,
      dropLastCol, is_nondominated, dominates, weaklyDomLE, strictlyBetterSomewhere,
      List.enum, List.enumFrom, np_fromiter_float]
  · norm_num [filter_dominated_sets_spec, groupRuns, lastCol, List.getLastD,
      boolMask, is_nondominated, dominates, weaklyDomLE, strictlyBetterSomewhere,
      List.enum, List.enumFrom, dropLastCol]

/-- Embedding of `vorobDev` with an explicitly supplied Vorob'ev
expectation `VE` (lines 767-793): after the column check, the data is
split at the first-occurrence indices of the sorted distinct set
identifiers (`np.unique(..., return_index=True)` + `np.vsplit`), and the
result is `VD - H1 - H2` with `VD = 2 * mean over splits of
hypervolume(split ++ VE)`, `H1 = mean over splits of hypervolume(split)`
and `H2 = hypervolume(VE)`. -/
def vorobDev (x : Matrix) (reference : Row) (VE : Matrix) : Except String ℚ :=
  let ncols := (x.headD []).length
  if ncols < 3 then
    .error "x must have at least 3 columns (2 objectives + set column)"
  else
    let H2 := hypervolume VE reference
    let cuts := (np_unique_first_index (ids x)).drop 1
    let x_split := np_vsplit (objs x) cuts
    let H1 := meanQ (x_split.map (fun g => hypervolume g reference))
    let VD := meanQ (x_split.map (fun g => hypervolume (g ++ VE) reference)) * 2
    .ok (VD - H1 - H2)

/-- A data row made of objective coordinates `r` and set identifier `k`. -/
def mkRow (k : ℚ) (r : Row) : Row := r ++ [k]

/-- The rows of one set: objective matrix `b.2` tagged with identifier
`b.1`. -/
def mkBlock (b : ℚ × Matrix) : Matrix := b.2.map (mkRow b.1)

/-- A well-formed multi-set dataset: the concatenation of its per-set
blocks (equal identifiers contiguous, identifiers increasing — the shape
`read_datasets` produces). -/
def mkData (blocks : List (ℚ × Matrix)) : Matrix := blocks.flatMap mkBlock

/-- The identifier column such a dataset carries. -/
def idsFlat (blocks : List (ℚ × Matrix)) : List ℚ :=
  blocks.flatMap (fun b => List.replicate b.2.length b.1)

theorem lastCol_mkRow (k : ℚ) (r : Row) : lastCol (mkRow k r) = k := by
  simp [lastCol, mkRow, List.getLastD_concat]

theorem dropLastCol_mkRow (k : ℚ) (r : Row) : dropLastCol (mkRow k r) = r := by
  simp [dropLastCol, mkRow]

theorem ids_mkData (blocks : List (ℚ × Matrix)) :
    ids (mkData blocks) = idsFlat blocks := by
  induction blocks with
  | nil => rfl
  | cons b bs ih =>
      simp only [mkData, idsFlat, List.flatMap_cons, ids, List.map_append] at *
      rw [ih]
      congr 1
      simp only [mkBlock, List.map_map]
      have : (lastCol ∘ mkRow b.1) = fun _ : Row => b.1 := by
        funext r; simp [Function.comp, lastCol_mkRow]
      rw [this, List.map_const']

theorem objs_mkData (blocks : List (ℚ × Matrix)) :
    objs (mkData blocks) = (blocks.map Prod.snd).flatten := by
  induction blocks with
  | nil => rfl
  | cons b bs ih =>
      simp only [mkData, List.flatMap_cons, objs, List.map_append, List.map_cons,
        List.flatten_cons] at *
      rw [ih]
      congr 1
      simp only [mkBlock, List.map_map]
      have : (dropLastCol ∘ mkRow b.1) = id := by
        funext r; simp [Function.comp, dropLastCol_mkRow]
      rw [this, List.map_id]

theorem sortQ_eq_self : ∀ xs : List ℚ, xs.Chain' (· ≤ ·) → sortQ xs = xs
  | [], _ => rfl
  | a :: xs, h => by
      have hx : sortQ xs = xs := sortQ_eq_self xs h.tail
      have : sortQ (a :: xs) = insertSorted a (sortQ xs) := rfl
      rw [this, hx]
      cases xs with
      | nil => rfl
      | cons b ys =>
          have hab : a ≤ b := (List.chain'_cons.mp h).1
          simp [insertSorted, hab]

theorem chain'_le_replicate_append (k : ℚ) (ys : List ℚ)
    (hys : ys.Chain' (· ≤ ·)) (hhd : ∀ y ∈ ys.head?, k ≤ y) :
    ∀ n : ℕ, (List.replicate n k ++ ys).Chain' (· ≤ ·)
  | 0 => by simpa using hys
  | n + 1 => by
      have ih := chain'_le_replicate_append k ys hys hhd n
      rw [List.replicate_succ, List.cons_append]
      apply List.chain'_cons'.mpr
      refine ⟨?_, ih⟩
      intro y hy
      rcases n with _ | n
      · simp only [List.replicate, List.nil_append] at hy
        exact hhd y hy
      · rw [List.replicate_succ, List.cons_append, List.head?_cons,
          Option.mem_some_iff] at hy
        rw [← hy]

theorem idsFlat_mem (blocks : List (ℚ × Matrix)) (y : ℚ) :
    y ∈ idsFlat blocks → ∃ b ∈ blocks, y = b.1 := by
  intro hy
  simp only [idsFlat, List.mem_flatMap, List.mem_replicate] at hy
  obtain ⟨b, hb, _, rfl⟩ := hy
  exact ⟨b, hb, rfl⟩

theorem idsFlat_chain' (blocks : List (ℚ × Matrix))
    (hmono : (blocks.map Prod.fst).Chain' (· < ·)) :
    (idsFlat blocks).Chain' (· ≤ ·) := by
  induction blocks with
  | nil => exact List.chain'_nil
  | cons b bs ih =>
      rw [List.map_cons] at hmono
      have hpair : (bs.map Prod.fst).Pairwise (· < ·) :=
        List.chain'_iff_pairwise.mp hmono.tail
      have hlt : ∀ b' ∈ bs, b.1 < b'.1 := by
        intro b' hb'
        have := List.chain'_iff_pairwise.mp hmono
        rw [List.pairwise_cons] at this
        exact this.1 b'.1 (List.mem_map_of_mem Prod.fst hb')
      rw [idsFlat, List.flatMap_cons]
      apply chain'_le_replicate_append
      · exact ih hmono.tail
      · intro y hy
        obtain ⟨b', hb', rfl⟩ := idsFlat_mem bs y (List.mem_of_mem_head? hy)
        exact (hlt b' hb').le

theorem dedupAdj_replicate_append (k : ℚ) (ys : List ℚ)
    (hhd : ∀ y ∈ ys.head?, k ≠ y) :
    ∀ n : ℕ, dedupAdj (List.replicate (n + 1) k ++ ys) = k :: dedupAdj ys
  | 0 => by
      have h1 : List.replicate (0 + 1) k ++ ys = k :: ys := by simp
      rw [h1]
      cases ys with
      | nil => rfl
      | cons y ys' =>
          have : k ≠ y := hhd y (by simp)
          simp [dedupAdj, this]
  | n + 1 => by
      have ih := dedupAdj_replicate_append k ys hhd n
      have h2 : List.replicate (n + 1 + 1) k ++ ys
          = k :: k :: (List.replicate n k ++ ys) := by
        rw [List.replicate_succ, List.replicate_succ, List.cons_append,
          List.cons_append]
      have h3 : List.replicate (n + 1) k ++ ys
          = k :: (List.replicate n k ++ ys) := by
        rw [List.replicate_succ, List.cons_append]
      rw [h2, show dedupAdj (k :: k :: (List.replicate n k ++ ys))
          = dedupAdj (k :: (List.replicate n k ++ ys)) by simp [dedupAdj]]
      rw [← h3]
      exact ih

theorem dedupAdj_idsFlat (blocks : List (ℚ × Matrix))
    (hmono : (blocks.map Prod.fst).Chain' (· < ·))
    (hblk : ∀ b ∈ blocks, b.2 ≠ []) :
    dedupAdj (idsFlat blocks) = blocks.map Prod.fst := by
  induction blocks with
  | nil => rfl
  | cons b bs ih =>
      rw [List.map_cons] at hmono
      have hlt : ∀ b' ∈ bs, b.1 < b'.1 := by
        intro b' hb'
        have := List.chain'_iff_pairwise.mp hmono
        rw [List.pairwise_cons] at this
        exact this.1 b'.1 (List.mem_map_of_mem Prod.fst hb')
      have hne : ∀ y ∈ (idsFlat bs).head?, b.1 ≠ y := by
        intro y hy
        obtain ⟨b', hb', rfl⟩ := idsFlat_mem bs y (List.mem_of_mem_head? hy)
        exact (hlt b' hb').ne
      obtain ⟨m, hm⟩ : ∃ m, b.2.length = m + 1 := by
        have := hblk b (by simp)
        cases hb2 : b.2 with
        | nil => exact absurd hb2 this
        | cons r rs => exact ⟨rs.length, by simp⟩
      have hflat : idsFlat (b :: bs)
          = List.replicate b.2.length b.1 ++ idsFlat bs := by
        simp [idsFlat]
      rw [hflat, hm, dedupAdj_replicate_append b.1 _ hne m, List.map_cons]
      congr 1
      exact ih hmono.tail (fun b' hb' => hblk b' (by simp [hb']))

theorem np_unique_idsFlat (blocks : List (ℚ × Matrix))
    (hmono : (blocks.map Prod.fst).Chain' (· < ·))
    (hblk : ∀ b ∈ blocks, b.2 ≠ []) :
    np_unique (idsFlat blocks) = blocks.map Prod.fst := by
  rw [np_unique, sortQ_eq_self _ (idsFlat_chain' blocks hmono)]
  exact dedupAdj_idsFlat blocks hmono hblk

theorem findIdx_replicate_append (k v : ℚ) (ys : List ℚ) (hne : k ≠ v) :
    ∀ n : ℕ, (List.replicate n k ++ ys).findIdx (fun a => decide (a = v))
      = n + ys.findIdx (fun a => decide (a = v))
  | 0 => by simp
  | n + 1 => by
      have ih := findIdx_replicate_append k v ys hne n
      rw [List.replicate_succ, List.cons_append, List.findIdx_cons]
      have hd : (decide (k = v)) = false := by simp [hne]
      rw [hd, cond_false, ih]
      omega

/-- The absolute row offsets at which successive blocks of the given
sizes start, the first block starting at `acc`. -/
def offsetsFrom (acc : ℕ) : List ℕ → List ℕ
  | [] => []
  | n :: ns => acc :: offsetsFrom (acc + n) ns

theorem offsetsFrom_shift (c : ℕ) : ∀ (ns : List ℕ) (a : ℕ),
    (offsetsFrom a ns).map (fun x => c + x) = offsetsFrom (c + a) ns
  | [], _ => rfl
  | n :: ns, a => by
      rw [offsetsFrom, offsetsFrom, List.map_cons, offsetsFrom_shift c ns (a + n)]
      rw [Nat.add_assoc]

theorem np_unique_first_index_idsFlat (blocks : List (ℚ × Matrix))
    (hmono : (blocks.map Prod.fst).Chain' (· < ·))
    (hblk : ∀ b ∈ blocks, b.2 ≠ []) :
    np_unique_first_index (idsFlat blocks)
      = offsetsFrom 0 (blocks.map (fun b => b.2.length)) := by
  induction blocks with
  | nil => rfl
  | cons b bs ih =>
      rw [List.map_cons] at hmono
      have hlt : ∀ b' ∈ bs, b.1 < b'.1 := by
        intro b' hb'
        have := List.chain'_iff_pairwise.mp hmono
        rw [List.pairwise_cons] at this
        exact this.1 b'.1 (List.mem_map_of_mem Prod.fst hb')
      have hblk' : ∀ b' ∈ bs, b'.2 ≠ [] := fun b' hb' => hblk b' (by simp [hb'])
      obtain ⟨m, hm⟩ : ∃ m, b.2.length = m + 1 := by
        have := hblk b (by simp)
        cases hb2 : b.2 with
        | nil => exact absurd hb2 this
        | cons r rs => exact ⟨rs.length, by simp⟩
      have hflat : idsFlat (b :: bs)
          = List.replicate b.2.length b.1 ++ idsFlat bs := by
        simp [idsFlat]
      have huniq : np_unique (idsFlat (b :: bs)) = b.1 :: bs.map Prod.fst := by
        have h := np_unique_idsFlat (b :: bs) (by rw [List.map_cons]; exact hmono) hblk
        rw [List.map_cons] at h
        exact h
      have hfirst : (idsFlat (b :: bs)).findIdx (fun a => decide (a = b.1)) = 0 := by
        rw [hflat, hm, List.replicate_succ, List.cons_append, List.findIdx_cons]
        simp
      have hstep : ∀ v ∈ bs.map Prod.fst,
          (idsFlat (b :: bs)).findIdx (fun a => decide (a = v))
            = b.2.length + (idsFlat bs).findIdx (fun a => decide (a = v)) := by
        intro v hv
        obtain ⟨b', hb', rfl⟩ := List.mem_map.mp hv
        rw [hflat]
        exact findIdx_replicate_append b.1 b'.1 (idsFlat bs) (hlt b' hb').ne _
      have huniq' : np_unique (idsFlat bs) = bs.map Prod.fst :=
        np_unique_idsFlat bs hmono.tail hblk'
      rw [np_unique_first_index, huniq]
      simp only [List.map_cons]
      rw [hfirst, List.map_congr_left hstep]
      have hcomp : (bs.map Prod.fst).map
            (fun v => b.2.length + (idsFlat bs).findIdx (fun a => decide (a = v)))
          = ((bs.map Prod.fst).map
              (fun v => (idsFlat bs).findIdx (fun a => decide (a = v)))).map
            (fun x => b.2.length + x) := by
        simp [List.map_map, Function.comp]
      rw [hcomp]
      have ihr : (bs.map Prod.fst).map
            (fun v => (idsFlat bs).findIdx (fun a => decide (a = v)))
          = offsetsFrom 0 (bs.map (fun b' => b'.2.length)) := by
        have h := ih hmono.tail hblk'
        rw [np_unique_first_index, huniq'] at h
        exact h
      rw [ihr, offsetsFrom_shift]
      simp only [List.map_cons, offsetsFrom, Nat.add_zero, Nat.zero_add]

theorem npSplitGo_blocks : ∀ (gs : List Matrix) (g : Matrix) (acc : ℕ) (m : Matrix),
    m.drop acc = g ++ gs.flatten →
    npSplitGo m acc (offsetsFrom (acc + g.length) (gs.map List.length)) = g :: gs
  | [], g, acc, m, h => by
      simp only [List.map_nil, offsetsFrom, npSplitGo]
      rw [h]
      simp
  | g' :: gs', g, acc, m, h => by
      rw [List.flatten_cons] at h
      have hdrop : m.drop (acc + g.length) = g' ++ gs'.flatten := by
        rw [← List.drop_drop, h, List.drop_left]
      have ih := npSplitGo_blocks gs' g' (acc + g.length) m hdrop
      simp only [List.map_cons, offsetsFrom, npSplitGo]
      have hsub : acc + g.length - acc = g.length := by omega
      rw [hsub, h, List.take_left, ih]

/-- Claim C8, amended: for every multi-set dataset whose set
identifiers are contiguous and appear in increasing order (nonempty
blocks, at least two objective columns — the shape `read_datasets`
produces) and explicitly supplied `VE`, `vorobDev` returns
`2 * mean over runs of hypervolume(run ++ VE) - mean over runs of
hypervolume(run) - hypervolume(VE)`, the means being unweighted means
over the distinct sets.  For contiguous but decreasing identifiers the
`np.unique`/`np.vsplit` pipeline mis-splits and the formula fails; see
the counterexample below. -/
theorem vorobDev_formula (blocks : List (ℚ × Matrix)) (reference : Row) (VE : Matrix)
    (d : ℕ) (hd : 2 ≤ d)
    (hne : blocks ≠ [])
    (hmono : (blocks.map Prod.fst).Chain' (· < ·))
    (hblk : ∀ b ∈ blocks, b.2 ≠ [])
    (hlen : ∀ b ∈ blocks, ∀ r ∈ b.2, r.length = d) :
    vorobDev (mkData blocks) reference VE
      = .ok (2 * meanQ (blocks.map (fun b => hypervolume (b.2 ++ VE) reference))
             - meanQ (blocks.map (fun b => hypervolume b.2 reference))
             - hypervolume VE reference) := by
  obtain ⟨b0, bs, rfl⟩ : ∃ b0 bs, blocks = b0 :: bs := by
    cases blocks with
    | nil => exact absurd rfl hne
    | cons b0 bs => exact ⟨b0, bs, rfl⟩
  obtain ⟨r0, rs, hb02⟩ : ∃ r0 rs, b0.2 = r0 :: rs := by
    cases h : b0.2 with
    | nil => exact absurd h (hblk b0 (by simp))
    | cons r0 rs => exact ⟨r0, rs, rfl⟩
  have hr0len : r0.length = d := hlen b0 (by simp) r0 (by rw [hb02]; simp)
  have hhead : ((mkData (b0 :: bs)).headD []).length = d + 1 := by
    have hh : (mkData (b0 :: bs)).headD [] = mkRow b0.1 r0 := by
      rw [mkData, List.flatMap_cons, mkBlock, hb02, List.map_cons,
        List.cons_append, List.headD_cons]
    rw [hh, mkRow, List.length_append, hr0len]
    simp
  have hnotlt : ¬ ((mkData (b0 :: bs)).headD []).length < 3 := by
    rw [hhead]; omega
  have hsplit : np_vsplit (objs (mkData (b0 :: bs)))
      ((np_unique_first_index (ids (mkData (b0 :: bs)))).drop 1)
      = (b0 :: bs).map Prod.snd := by
    rw [ids_mkData, np_unique_first_index_idsFlat _ hmono hblk, objs_mkData]
    have hoff : offsetsFrom 0 ((b0 :: bs).map (fun b => b.2.length))
        = 0 :: offsetsFrom b0.2.length (bs.map (fun b => b.2.length)) := by
      rw [List.map_cons, offsetsFrom, Nat.zero_add]
    rw [hoff]
    have hdrop1 : (0 :: offsetsFrom b0.2.length (bs.map (fun b => b.2.length))).drop 1
        = offsetsFrom b0.2.length (bs.map (fun b => b.2.length)) := rfl
    rw [hdrop1, np_vsplit]
    have hfl : (((b0 :: bs).map Prod.snd).flatten).drop 0
        = b0.2 ++ (bs.map Prod.snd).flatten := by
      rw [List.drop_zero, List.map_cons, List.flatten_cons]
    have hmain := npSplitGo_blocks (bs.map Prod.snd) b0.2 0
      (((b0 :: bs).map Prod.snd).flatten) hfl
    have harg : (bs.map Prod.snd).map List.length = bs.map (fun b => b.2.length) := by
      rw [List.map_map]
      rfl
    rw [harg, Nat.zero_add] at hmain
    rw [List.map_cons]
    exact hmain
  unfold vorobDev
  rw [if_neg hnotlt]
  simp only [hsplit, List.map_map]
  have hc1 : ((fun g => hypervolume (g ++ VE) reference) ∘ Prod.snd)
      = fun b : ℚ × Matrix => hypervolume (b.2 ++ VE) reference := rfl
  have hc2 : ((fun g => hypervolume g reference) ∘ Prod.snd)
      = fun b : ℚ × Matrix => hypervolume b.2 reference := rfl
  rw [hc1, hc2]
  congr 1
  ring

/-- Claim C8, witness: two one-point runs {(0,0)} and {(1,1)} with
`VE = [[0,1]]` and reference `(2,2)`. -/
theorem vorobDev_formula_witness :
    vorobDev (mkData [(1, [[0, 0]]), (2, [[1, 1]])]) [2, 2] [[0, 1]]
      = .ok (2 * meanQ ([(1, [[0, 0]]), ((2 : ℚ), [[1, 1]])].map
              (fun b => hypervolume (b.2 ++ [[0, 1]]) [2, 2]))
             - meanQ ([(1, [[0, 0]]), ((2 : ℚ), [[1, 1]])].map
              (fun b => hypervolume b.2 [2, 2]))
             - hypervolume [[0, 1]] [2, 2]) := by
  have h := vorobDev_formula [(1, [[0, 0]]), (2, [[1, 1]])] [2, 2] [[0, 1]] 2
    (le_refl 2) (by simp)
    (by simp [List.chain'_cons])
    (by intro b hb; fin_cases hb <;> simp)
    (by intro b hb; fin_cases hb <;>
      (intro r hr; simp only [List.mem_singleton] at hr; subst hr; simp))
  exact h

/-- Claim C8, counterexample: the claim as stated fails on a dataset
whose equal identifiers are contiguous but not sorted, which the spec
allows ("not necessarily requiring global sort").  With set 5 = {(1,1)}
followed by set 3 = {(0,0)}, reference (2,2) and `VE = [[0,1]]`, the
first-occurrence indices of the sorted unique identifiers are [1,0], so
`np.vsplit` splits at row 0 into an empty piece and a piece holding both
runs: the code returns 2, while the claimed formula over the distinct
sets gives 3/2. -/
theorem vorobDev_unsorted_cex :
    vorobDev (mkData [(5, [[1, 1]]), (3, [[0, 0]])]) [2, 2] [[0, 1]] = .ok 2 ∧
    2 * meanQ ([((5 : ℚ), ([[1, 1]] : Matrix)), (3, [[0, 0]])].map
        (fun b => hypervolume (b.2 ++ [[0, 1]]) [2, 2]))
      - meanQ ([((5 : ℚ), ([[1, 1]] : Matrix)), (3, [[0, 0]])].map
        (fun b => hypervolume b.2 [2, 2]))
      - hypervolume [[0, 1]] [2, 2] = 3 / 2 ∧
    (2 : ℚ) ≠ 3 / 2 := by
  refine ⟨?_, ?_, by norm_num⟩
  · norm_num [vorobDev, mkData, mkBlock, mkRow, ids, objs, lastCol, dropLastCol,
      List.getLastD, np_unique_first_index, np_unique, sortQ, insertSorted, dedupAdj,
      np_vsplit, npSplitGo, meanQ, hypervolume, pointBoxVol, cornerSup,
      List.findIdx_cons, List.findIdx_nil]
  · norm_num [meanQ, hypervolume, pointBoxVol, cornerSup]

end Moocore
